import Mathlib

/-!
Verification of the pagination and page-navigation logic of the ePub
reader simulator (`epub_process_simulator.py`).

The pure core is `paginate_words`, a `while idx < total_words` loop that
slices `words[idx : idx + words_per_page]` and advances `idx` by
`words_per_page`.  The loop is embedded with an explicit fuel argument
bounding the number of iterations; `words.length` units of fuel are enough
whenever `words_per_page ≥ 1` (proved below), so `paginate_words` runs the
loop with that budget.

The GUI handlers (`open_epub`, `next_page`, `prev_page`,
`set_words_per_page`, `render_current_page`) are embedded as pure
functions from a `ReaderState` (the mutable fields `words_per_page`,
`pages`, `current_page_idx` of `EPubReaderGUI`) to a new state plus a
list of `UIEvent`s recording dialogs and display operations.  External
effects feeding a handler (the file dialog plus `extract_text_from_epub`,
or `simpledialog.askinteger`) are passed in as explicit inputs.
-/

namespace EpubSim

/-- One execution of the `while idx < total_words` loop body of
`paginate_words`, with fuel bounding the iteration count: each iteration
appends the slice `words[idx : idx + words_per_page]` (that is,
`(words.drop idx).take words_per_page`) and advances `idx` by
`words_per_page`. -/
def paginateGo (words : List String) (words_per_page : Nat) :
    Nat → Nat → List (List String)
  | _, 0 => []
  | idx, fuel + 1 =>
    if idx < words.length then
      ((words.drop idx).take words_per_page) ::
        paginateGo words words_per_page (idx + words_per_page) fuel
    else []

/-- The function `paginate_words(words, words_per_page)` of the source:
splits the list of words into pages each containing up to
`words_per_page` words.  A fuel budget of `words.length` suffices for the
loop whenever `words_per_page ≥ 1`. -/
def paginate_words (words : List String) (words_per_page : Nat) :
    List (List String) :=
  paginateGo words words_per_page 0 words.length

/-- The loop index of `paginate_words` after `k` iterations: it starts at
`0` and each iteration performs `idx += words_per_page`. -/
def idxAfter (words_per_page : Nat) : Nat → Nat
  | 0 => 0
  | k + 1 => idxAfter words_per_page k + words_per_page

/-- The mutable reader fields of `EPubReaderGUI`: `words_per_page`,
`pages` and `current_page_idx`. -/
structure ReaderState where
  words_per_page : Nat
  pages : List (List String)
  current_page_idx : Nat
  deriving DecidableEq

/-- Observable effects of a handler: display-sink calls (`clear`,
`draw_text`, `refresh`), the message boxes, and an out-of-bounds page
access (Python would raise `IndexError`). -/
inductive UIEvent where
  | cleared : UIEvent
  | drawn : String → UIEvent
  | refreshed : UIEvent
  | info : String → UIEvent
  | warning : String → UIEvent
  | errorDialog : String → UIEvent
  | indexError : UIEvent
  deriving DecidableEq

/-- The outcome of the file dialog plus `extract_text_from_epub` as seen
by `open_epub`: the dialog was cancelled, extraction raised an exception
(carrying its message), or extraction returned a word list. -/
inductive OpenInput where
  | cancelled : OpenInput
  | failure : String → OpenInput
  | success : List String → OpenInput
  deriving DecidableEq

/-- `render_current_page`: with no pages loaded it returns without
rendering; otherwise it clears the display, draws the space-joined words
of `pages[current_page_idx]`, and refreshes.  An out-of-bounds index is
recorded as `indexError`. -/
def render_current_page (s : ReaderState) : List UIEvent :=
  if s.pages = [] then []
  else
    match s.pages.get? s.current_page_idx with
    | some page_words =>
        [.cleared, .drawn (String.intercalate " " page_words), .refreshed]
    | none => [.indexError]

/-- The state after the two assignments
`self.pages = paginate_words(all_words, self.words_per_page)` and
`self.current_page_idx = 0` of `open_epub`. -/
def loadPages (s : ReaderState) (all_words : List String) : ReaderState :=
  { s with pages := paginate_words all_words s.words_per_page,
           current_page_idx := 0 }

/-- `open_epub`: on a cancelled dialog it returns; otherwise it extracts,
paginates with the current `words_per_page`, resets the index to `0`,
warns when no content was found, and renders page one.  An extraction
exception is caught and shown as an error dialog, before any state
field is assigned. -/
def open_epub (s : ReaderState) (input : OpenInput) :
    ReaderState × List UIEvent :=
  match input with
  | .cancelled => (s, [])
  | .failure e => (s, [.errorDialog ("Failed to open/parse ePub:\n" ++ e)])
  | .success all_words =>
      if (loadPages s all_words).pages = [] then
        (loadPages s all_words,
          [.warning "No textual content found in this ePub."])
      else
        (loadPages s all_words, render_current_page (loadPages s all_words))

/-- `next_page`: no-op when no pages are loaded; advances and re-renders
when `current_page_idx < len(pages) - 1`; otherwise informs the user they
are on the last page. -/
def next_page (s : ReaderState) : ReaderState × List UIEvent :=
  if s.pages = [] then (s, [])
  else if s.current_page_idx < s.pages.length - 1 then
    let s' : ReaderState := { s with current_page_idx := s.current_page_idx + 1 }
    (s', render_current_page s')
  else (s, [.info "You are on the last page."])

/-- `prev_page`: no-op when no pages are loaded; goes back and re-renders
when `current_page_idx > 0`; otherwise informs the user they are on the
first page. -/
def prev_page (s : ReaderState) : ReaderState × List UIEvent :=
  if s.pages = [] then (s, [])
  else if 0 < s.current_page_idx then
    let s' : ReaderState := { s with current_page_idx := s.current_page_idx - 1 }
    (s', render_current_page s')
  else (s, [.info "You are on the first page."])

/-- `set_words_per_page`: asks to open an ePub first when no pages are
loaded; returns on a cancelled prompt; otherwise flattens the current
pages back to one word list, re-paginates with the new setting, resets
the index to `0` and re-renders.  The `askinteger` outcome is the
`dialog` input (`none` models cancellation). -/
def set_words_per_page (s : ReaderState) (dialog : Option Nat) :
    ReaderState × List UIEvent :=
  if s.pages = [] then
    (s, [.info "Open an ePub first before setting words/page."])
  else
    match dialog with
    | none => (s, [])
    | some new_wpp =>
        let all_words := s.pages.flatten
        let s' : ReaderState :=
          { s with words_per_page := new_wpp,
                   pages := paginate_words all_words new_wpp,
                   current_page_idx := 0 }
        (s', render_current_page s')

/-- Invariant of the reader: either no pages are loaded, or the current
page index is in bounds. -/
def stateInv (s : ReaderState) : Prop :=
  s.pages = [] ∨ s.current_page_idx < s.pages.length

instance (s : ReaderState) : Decidable (stateInv s) := by
  unfold stateInv; infer_instance

example : paginate_words ["a", "b", "c", "d", "e"] 2 =
    [["a", "b"], ["c", "d"], ["e"]] := by decide

example : paginate_words [] 7 = [] := by decide

/-- Running the loop from index `d + i` over `words` is the same as
running it from index `i` over `words.drop d`. -/
theorem paginateGo_shift (words : List String) (p : Nat) :
    ∀ (fuel idx d : Nat),
      paginateGo words p (d + idx) fuel = paginateGo (words.drop d) p idx fuel := by
  intro fuel
  induction fuel with
  | zero => intro idx d; rfl
  | succ fuel ih =>
    intro idx d
    have hlen : (words.drop d).length = words.length - d := List.length_drop d words
    by_cases h : d + idx < words.length
    · have h' : idx < (words.drop d).length := by omega
      rw [paginateGo, paginateGo, if_pos h, if_pos h']
      have hchunk : words.drop (d + idx) = (words.drop d).drop idx := by
        rw [List.drop_drop]
      have harg : d + idx + p = d + (idx + p) := by omega
      rw [hchunk, harg, ih (idx + p) d]
    · have h' : ¬ idx < (words.drop d).length := by omega
      rw [paginateGo, paginateGo, if_neg h, if_neg h']

/-- With page size at least one, any fuel budget of at least
`words.length` computes the same pages as `paginate_words`. -/
theorem paginateGo_stable (p : Nat) (hp : 1 ≤ p) :
    ∀ (n : Nat) (words : List String) (fuel : Nat),
      words.length ≤ n → words.length ≤ fuel →
      paginateGo words p 0 fuel = paginate_words words p := by
  intro n
  induction n with
  | zero =>
    intro words fuel h0 _
    have hw : words = [] := List.length_eq_zero.mp (by omega)
    subst hw
    cases fuel with
    | zero => rfl
    | succ f => rw [paginateGo, if_neg (by simp)]; rfl
  | succ n ih =>
    intro words fuel hn hf
    by_cases hw : words = []
    · subst hw
      cases fuel with
      | zero => rfl
      | succ f => rw [paginateGo, if_neg (by simp)]; rfl
    · have hlen : 1 ≤ words.length := List.length_pos.mpr hw
      have hdrop : (words.drop p).length = words.length - p := List.length_drop p words
      obtain ⟨f, rfl⟩ : ∃ f, fuel = f + 1 := ⟨fuel - 1, by omega⟩
      obtain ⟨m, hm⟩ : ∃ m, words.length = m + 1 := ⟨words.length - 1, by omega⟩
      have hrec : ∀ g : Nat, words.length - p ≤ g →
          paginateGo words p (0 + p) g = paginate_words (words.drop p) p := by
        intro g hg
        have hsh := paginateGo_shift words p g 0 p
        rw [show 0 + p = p + 0 by omega, hsh]
        exact ih (words.drop p) g (by omega) (by omega)
      rw [paginateGo, if_pos (by omega : 0 < words.length), hrec f (by omega)]
      conv_rhs => rw [paginate_words, hm, paginateGo, if_pos (by omega : 0 < words.length)]
      rw [hrec m (by omega)]

/-- `paginate_words` on the empty word list yields no pages, for any page
size. -/
theorem paginate_words_nil (p : Nat) : paginate_words [] p = [] := rfl

/-- One unfolding of `paginate_words` on a non-empty word list: the first
page is `words.take p` and the rest paginates `words.drop p`. -/
theorem paginate_words_cons (p : Nat) (hp : 1 ≤ p) (words : List String)
    (hw : words ≠ []) :
    paginate_words words p = words.take p :: paginate_words (words.drop p) p := by
  have hlen : 1 ≤ words.length := List.length_pos.mpr hw
  obtain ⟨m, hm⟩ : ∃ m, words.length = m + 1 := ⟨words.length - 1, by omega⟩
  have hdrop : (words.drop p).length = words.length - p := List.length_drop p words
  rw [paginate_words, hm, paginateGo, if_pos (by omega : 0 < words.length)]
  have hsh := paginateGo_shift words p m 0 p
  rw [show 0 + p = p + 0 by omega, hsh,
    paginateGo_stable p hp (words.drop p).length (words.drop p) m le_rfl (by omega),
    List.drop_zero]

/-- Pagination never loses a page boundary: the pages are empty exactly
when the input is empty (page size at least one). -/
theorem paginate_words_eq_nil_iff (p : Nat) (hp : 1 ≤ p) (words : List String) :
    paginate_words words p = [] ↔ words = [] := by
  constructor
  · intro h
    by_contra hw
    rw [paginate_words_cons p hp words hw] at h
    exact List.cons_ne_nil _ _ h
  · intro h; subst h; rfl

/-- Concatenating the pages of `paginate_words` in order reproduces the
input word list (auxiliary, with an explicit length bound). -/
theorem paginate_flatten_aux (p : Nat) (hp : 1 ≤ p) :
    ∀ (n : Nat) (words : List String), words.length ≤ n →
      (paginate_words words p).flatten = words := by
  intro n
  induction n with
  | zero =>
    intro words h0
    have hw : words = [] := List.length_eq_zero.mp (by omega)
    subst hw; rfl
  | succ n ih =>
    intro words hn
    by_cases hw : words = []
    · subst hw; rfl
    · have hlen : 1 ≤ words.length := List.length_pos.mpr hw
      have hdrop : (words.drop p).length = words.length - p := List.length_drop p words
      rw [paginate_words_cons p hp words hw, List.flatten_cons,
        ih (words.drop p) (by omega)]
      exact List.take_append_drop p words

/-- Concatenating the pages of `paginate_words` in order reproduces the
input word list. -/
theorem paginate_flatten (p : Nat) (hp : 1 ≤ p) (words : List String) :
    (paginate_words words p).flatten = words :=
  paginate_flatten_aux p hp words.length words le_rfl

/-- The number of pages produced by `paginate_words` is the ceiling of
`words.length / p`, written `(words.length + p - 1) / p`. -/
theorem paginate_length (p : Nat) (hp : 1 ≤ p) (words : List String) :
    (paginate_words words p).length = (words.length + p - 1) / p := by
  suffices h : ∀ (n : Nat) (ws : List String), ws.length ≤ n →
      (paginate_words ws p).length = (ws.length + p - 1) / p from
    h words.length words le_rfl
  intro n
  induction n with
  | zero =>
    intro ws h0
    have hw : ws = [] := List.length_eq_zero.mp (by omega)
    subst hw
    rw [paginate_words_nil]
    simp only [List.length_nil]
    rw [Nat.div_eq_of_lt (by omega)]
  | succ n ih =>
    intro ws hn
    by_cases hw : ws = []
    · subst hw
      rw [paginate_words_nil]
      simp only [List.length_nil]
      rw [Nat.div_eq_of_lt (by omega)]
    · have hlen : 1 ≤ ws.length := List.length_pos.mpr hw
      have hdrop : (ws.drop p).length = ws.length - p := List.length_drop p ws
      rw [paginate_words_cons p hp ws hw, List.length_cons,
        ih (ws.drop p) (by omega), hdrop]
      rcases le_or_lt p ws.length with hpl | hpl
      · have e1 : ws.length - p + p - 1 = ws.length - 1 := by omega
        have e2 : ws.length + p - 1 = ws.length - 1 + p := by omega
        rw [e1, e2, Nat.add_div_right _ (by omega : 0 < p)]
      · have e1 : ws.length - p + p - 1 = p - 1 := by omega
        have e2 : ws.length + p - 1 = ws.length - 1 + p := by omega
        rw [e1, e2, Nat.add_div_right _ (by omega : 0 < p),
          Nat.div_eq_of_lt (by omega : p - 1 < p),
          Nat.div_eq_of_lt (by omega : ws.length - 1 < p)]

/-- Page `i` of `paginate_words words p` is the slice
`words[i*p : i*p + p]` (auxiliary, with an explicit length bound). -/
theorem paginate_get_aux (p : Nat) (hp : 1 ≤ p) :
    ∀ (n : Nat) (words : List String) (i : Nat), words.length ≤ n →
      i < (paginate_words words p).length →
      (paginate_words words p).get? i = some ((words.drop (i * p)).take p) := by
  intro n
  induction n with
  | zero =>
    intro words i h0 hi
    have hw : words = [] := List.length_eq_zero.mp (by omega)
    subst hw
    rw [paginate_words_nil] at hi
    simp at hi
  | succ n ih =>
    intro words i hn hi
    by_cases hw : words = []
    · subst hw; rw [paginate_words_nil] at hi; simp at hi
    · have hlen : 1 ≤ words.length := List.length_pos.mpr hw
      have hdrop : (words.drop p).length = words.length - p := List.length_drop p words
      rw [paginate_words_cons p hp words hw] at hi ⊢
      cases i with
      | zero =>
        rw [List.get?_cons_zero, Nat.zero_mul, List.drop_zero]
      | succ i =>
        rw [List.get?_cons_succ]
        rw [List.length_cons] at hi
        rw [ih (words.drop p) i (by omega) (by omega), List.drop_drop,
          Nat.succ_mul, Nat.add_comm (i * p) p]

/-- Page `i` of `paginate_words words p` is the slice
`words[i*p : i*p + p]`. -/
theorem paginate_get (p : Nat) (hp : 1 ≤ p) (words : List String) (i : Nat)
    (hi : i < (paginate_words words p).length) :
    (paginate_words words p).get? i = some ((words.drop (i * p)).take p) :=
  paginate_get_aux p hp words.length words i le_rfl hi

/-- Index `i` is a valid page index exactly when the loop would still run
at `idx = i * p`. -/
theorem lt_paginate_length_iff (p : Nat) (hp : 1 ≤ p) (words : List String)
    (i : Nat) :
    i < (paginate_words words p).length ↔ i * p < words.length := by
  rw [paginate_length p hp words]
  rcases Nat.eq_zero_or_pos words.length with h0 | h0
  · rw [h0, Nat.div_eq_of_lt (by omega)]
    simp
  · have hsm : (i + 1) * p = i * p + p := Nat.succ_mul i p
    constructor
    · intro hi
      have hi' : i + 1 ≤ (words.length + p - 1) / p := hi
      have := (Nat.le_div_iff_mul_le (by omega : 0 < p)).mp hi'
      omega
    · intro hi
      have h1 : (i + 1) * p ≤ words.length + p - 1 := by omega
      exact (Nat.le_div_iff_mul_le (by omega : 0 < p)).mpr h1

/-- The length of page `i` is `min p (words.length - i * p)`. -/
theorem paginate_page_sizes (p : Nat) (hp : 1 ≤ p) (words : List String)
    (i : Nat) (hi : i < (paginate_words words p).length) :
    ∃ page, (paginate_words words p).get? i = some page ∧
      page.length = min p (words.length - i * p) := by
  refine ⟨_, paginate_get p hp words i hi, ?_⟩
  rw [List.length_take, List.length_drop]

/-- Rendering with the current index in bounds clears, draws the joined
page, and refreshes. -/
theorem render_eq_of_get (s : ReaderState) (page : List String)
    (h : s.pages.get? s.current_page_idx = some page) :
    render_current_page s =
      [.cleared, .drawn (String.intercalate " " page), .refreshed] := by
  have hne : s.pages ≠ [] := by
    intro h'
    rw [h', List.get?_nil] at h
    exact Option.noConfusion h
  unfold render_current_page
  rw [if_neg hne, h]

/-- Rendering with no pages loaded is a guarded no-op. -/
theorem render_nil (s : ReaderState) (h : s.pages = []) :
    render_current_page s = [] := by
  unfold render_current_page
  rw [if_pos h]

/-- The function `render_current_page` never produces an error dialog. -/
theorem render_no_error (s : ReaderState) (m : String) :
    UIEvent.errorDialog m ∉ render_current_page s := by
  unfold render_current_page
  by_cases h : s.pages = []
  · rw [if_pos h]; simp
  · rw [if_neg h]
    rcases hg : s.pages.get? s.current_page_idx with _ | page <;> simp [hg]

/-- C1: for every word list of length `n` and page size `p ≥ 1`,
`paginate_words` returns pages whose lengths sum to `n`, exactly
`⌈n/p⌉` pages when `n > 0`, and an empty page list (not an error) when
`n = 0`. -/
theorem pagination_count_and_sum (words : List String) (p : Nat) (hp : 1 ≤ p) :
    ((paginate_words words p).map List.length).sum = words.length ∧
    (0 < words.length →
      (paginate_words words p).length = (words.length + p - 1) / p) ∧
    (words.length = 0 → (paginate_words words p).length = 0) := by
  refine ⟨?_, fun _ => paginate_length p hp words, ?_⟩
  · rw [← List.length_flatten, paginate_flatten p hp words]
  · intro h0
    have hw : words = [] := List.length_eq_zero.mp h0
    subst hw
    rfl

/-- Witness for C1 at `["a","b","c","d","e"]` with page size `2`. -/
theorem pagination_count_and_sum_witness :
    1 ≤ 2 ∧
    ((paginate_words ["a", "b", "c", "d", "e"] 2).map List.length).sum = 5 ∧
    (paginate_words ["a", "b", "c", "d", "e"] 2).length = 3 := by
  have h := pagination_count_and_sum ["a", "b", "c", "d", "e"] 2 (by norm_num)
  refine ⟨by norm_num, ?_, ?_⟩
  · simpa using h.1
  · simpa using h.2.1 (by decide)

/-- C2: concatenating the pages of `paginate_words words p` in order
reproduces `words` exactly, for any `p ≥ 1`. -/
theorem pagination_roundtrip (words : List String) (p : Nat) (hp : 1 ≤ p) :
    (paginate_words words p).flatten = words :=
  paginate_flatten p hp words

/-- Witness for C2 at `["x","y","z"]` with page size `2`. -/
theorem pagination_roundtrip_witness :
    1 ≤ 2 ∧ (paginate_words ["x", "y", "z"] 2).flatten = ["x", "y", "z"] :=
  ⟨by norm_num, pagination_roundtrip ["x", "y", "z"] 2 (by norm_num)⟩

/-- C3: every page except possibly the last has exactly `p` tokens, the
last page has between `1` and `p` tokens, and page `i` is the consecutive
run `words[i*p : i*p + p]` of the original order. -/
theorem pagination_page_shape (words : List String) (p : Nat) (hp : 1 ≤ p) :
    (∀ i : Nat, i + 1 < (paginate_words words p).length →
      ∃ page, (paginate_words words p).get? i = some page ∧
        page.length = p) ∧
    (words ≠ [] →
      ∃ page, (paginate_words words p).get?
          ((paginate_words words p).length - 1) = some page ∧
        1 ≤ page.length ∧ page.length ≤ p) ∧
    (∀ i : Nat, i < (paginate_words words p).length →
      (paginate_words words p).get? i =
        some ((words.drop (i * p)).take p)) := by
  refine ⟨?_, ?_, fun i hi => paginate_get p hp words i hi⟩
  · intro i hi
    have hi' : i < (paginate_words words p).length := by omega
    obtain ⟨page, hg, hl⟩ := paginate_page_sizes p hp words i hi'
    have hnext : (i + 1) * p < words.length :=
      (lt_paginate_length_iff p hp words (i + 1)).mp hi
    have hsm : (i + 1) * p = i * p + p := Nat.succ_mul i p
    exact ⟨page, hg, by omega⟩
  · intro hw
    have hne : paginate_words words p ≠ [] := by
      intro h
      exact hw ((paginate_words_eq_nil_iff p hp words).mp h)
    have hlen : 1 ≤ (paginate_words words p).length := List.length_pos.mpr hne
    have hjlt : (paginate_words words p).length - 1 <
        (paginate_words words p).length := by omega
    obtain ⟨page, hg, hl⟩ :=
      paginate_page_sizes p hp words ((paginate_words words p).length - 1) hjlt
    have hjp : ((paginate_words words p).length - 1) * p < words.length :=
      (lt_paginate_length_iff p hp words _).mp hjlt
    exact ⟨page, hg, by omega, by omega⟩

/-- Witness for C3 at `["a","b","c","d","e"]` with page size `2`. -/
theorem pagination_page_shape_witness :
    1 ≤ 2 ∧ (["a", "b", "c", "d", "e"] : List String) ≠ [] ∧
    (∃ page, (paginate_words ["a", "b", "c", "d", "e"] 2).get? 0 = some page ∧
      page.length = 2) ∧
    (∃ page, (paginate_words ["a", "b", "c", "d", "e"] 2).get?
        ((paginate_words ["a", "b", "c", "d", "e"] 2).length - 1) = some page ∧
      1 ≤ page.length ∧ page.length ≤ 2) := by
  have h := pagination_page_shape ["a", "b", "c", "d", "e"] 2 (by norm_num)
  exact ⟨by norm_num, by simp, h.1 0 (by decide), h.2.1 (by simp)⟩

/-- C4: re-pagination is idempotent with respect to content: paginating
the order-preserving flattening of a pagination gives the same result as
paginating the original words. -/
theorem repagination_lossless (words : List String) (p1 p2 : Nat)
    (h1 : 1 ≤ p1) (h2 : 1 ≤ p2) :
    paginate_words (paginate_words words p1).flatten p2 =
      paginate_words words p2 := by
  rw [paginate_flatten p1 h1 words]

/-- Witness for C4 at `["a","b","c","d","e"]`, `p1 = 2`, `p2 = 3`. -/
theorem repagination_lossless_witness :
    1 ≤ 2 ∧ 1 ≤ 3 ∧
    paginate_words (paginate_words ["a", "b", "c", "d", "e"] 2).flatten 3 =
      paginate_words ["a", "b", "c", "d", "e"] 3 :=
  ⟨by norm_num, by norm_num,
    repagination_lossless ["a", "b", "c", "d", "e"] 2 3 (by norm_num)
      (by norm_num)⟩

/-- C5: with a non-empty book loaded, `next_page` below the last page
advances the index and re-renders; at the last page it stays and shows
the "last page" notice; `prev_page` above the first page decrements and
re-renders; at the first page it stays and shows the "first page"
notice.  No case shows an error dialog or changes the loaded pages. -/
theorem navigator_boundary (s : ReaderState) (hne : s.pages ≠ []) :
    (s.current_page_idx < s.pages.length - 1 →
      (next_page s).1 = { s with current_page_idx := s.current_page_idx + 1 } ∧
      (next_page s).2 = render_current_page (next_page s).1 ∧
      ∃ t, UIEvent.drawn t ∈ (next_page s).2) ∧
    (s.current_page_idx = s.pages.length - 1 →
      (next_page s).1 = s ∧
      (next_page s).2 = [.info "You are on the last page."]) ∧
    (0 < s.current_page_idx →
      (prev_page s).1 = { s with current_page_idx := s.current_page_idx - 1 } ∧
      (prev_page s).2 = render_current_page (prev_page s).1) ∧
    (s.current_page_idx = 0 →
      (prev_page s).1 = s ∧
      (prev_page s).2 = [.info "You are on the first page."]) ∧
    (next_page s).1.pages = s.pages ∧
    (prev_page s).1.pages = s.pages ∧
    (∀ m, UIEvent.errorDialog m ∉ (next_page s).2) ∧
    (∀ m, UIEvent.errorDialog m ∉ (prev_page s).2) := by
  have hlen : 1 ≤ s.pages.length := List.length_pos.mpr hne
  have hadv : ∀ _ : s.current_page_idx < s.pages.length - 1,
      next_page s = ({ s with current_page_idx := s.current_page_idx + 1 },
        render_current_page
          { s with current_page_idx := s.current_page_idx + 1 }) := by
    intro h
    unfold next_page
    rw [if_neg hne, if_pos h]
  have hstay : ∀ _ : ¬ s.current_page_idx < s.pages.length - 1,
      next_page s = (s, [.info "You are on the last page."]) := by
    intro h
    unfold next_page
    rw [if_neg hne, if_neg h]
  have hback : ∀ _ : 0 < s.current_page_idx,
      prev_page s = ({ s with current_page_idx := s.current_page_idx - 1 },
        render_current_page
          { s with current_page_idx := s.current_page_idx - 1 }) := by
    intro h
    unfold prev_page
    rw [if_neg hne, if_pos h]
  have hfirst : ∀ _ : ¬ 0 < s.current_page_idx,
      prev_page s = (s, [.info "You are on the first page."]) := by
    intro h
    unfold prev_page
    rw [if_neg hne, if_neg h]
  refine ⟨?_, ?_, ?_, ?_, ?_, ?_, ?_, ?_⟩
  · intro h
    rw [hadv h]
    refine ⟨rfl, rfl, ?_⟩
    have hidx : s.current_page_idx + 1 < s.pages.length := by omega
    obtain ⟨page, hpage⟩ : ∃ page,
        s.pages.get? (s.current_page_idx + 1) = some page :=
      ⟨_, List.get?_eq_get hidx⟩
    refine ⟨String.intercalate " " page, ?_⟩
    rw [render_eq_of_get { s with current_page_idx := s.current_page_idx + 1 }
      page hpage]
    simp
  · intro h
    rw [hstay (by omega)]
    exact ⟨rfl, rfl⟩
  · intro h
    rw [hback h]
    exact ⟨rfl, rfl⟩
  · intro h
    rw [hfirst (by omega)]
    exact ⟨rfl, rfl⟩
  · by_cases h : s.current_page_idx < s.pages.length - 1
    · rw [hadv h]
    · rw [hstay h]
  · by_cases h : 0 < s.current_page_idx
    · rw [hback h]
    · rw [hfirst h]
  · intro m
    by_cases h : s.current_page_idx < s.pages.length - 1
    · rw [hadv h]
      exact render_no_error _ m
    · rw [hstay h]
      simp
  · intro m
    by_cases h : 0 < s.current_page_idx
    · rw [hback h]
      exact render_no_error _ m
    · rw [hfirst h]
      simp

/-- Witness for C5 on a concrete two-page book: advancing from page 0,
the "first page" signal at index 0, and the "last page" signal at the
final index. -/
theorem navigator_boundary_witness :
    (ReaderState.mk 2 [["a", "b"], ["c"]] 0).pages ≠ [] ∧
    (next_page (ReaderState.mk 2 [["a", "b"], ["c"]] 0)).1 =
      ReaderState.mk 2 [["a", "b"], ["c"]] 1 ∧
    (prev_page (ReaderState.mk 2 [["a", "b"], ["c"]] 0)).2 =
      [.info "You are on the first page."] ∧
    (next_page (ReaderState.mk 2 [["a", "b"], ["c"]] 1)).2 =
      [.info "You are on the last page."] := by
  have h0 := navigator_boundary (ReaderState.mk 2 [["a", "b"], ["c"]] 0) (by simp)
  have h1 := navigator_boundary (ReaderState.mk 2 [["a", "b"], ["c"]] 1) (by simp)
  refine ⟨by simp, ?_, ?_, ?_⟩
  · exact (h0.1 (by decide)).1
  · exact (h0.2.2.2.1 rfl).2
  · exact (h1.2.1 (by decide)).2

/-- C6: with a book loaded and a prompt value supplied,
`set_words_per_page` re-paginates the order-preserving flattening of the
current pages with the new size and resets the index to `0`; with no book
loaded, or a cancelled prompt, it does not re-paginate. -/
theorem set_words_per_page_semantics (s : ReaderState) (dialog : Option Nat) :
    (s.pages ≠ [] → ∀ w, dialog = some w →
      (set_words_per_page s dialog).1.words_per_page = w ∧
      (set_words_per_page s dialog).1.pages =
        paginate_words s.pages.flatten w ∧
      (set_words_per_page s dialog).1.current_page_idx = 0) ∧
    (s.pages = [] → (set_words_per_page s dialog).1 = s) ∧
    (dialog = none → (set_words_per_page s dialog).1 = s) := by
  refine ⟨?_, ?_, ?_⟩
  · intro hne w hw
    subst hw
    unfold set_words_per_page
    rw [if_neg hne]
    exact ⟨rfl, rfl, rfl⟩
  · intro h
    unfold set_words_per_page
    rw [if_pos h]
  · intro hd
    subst hd
    unfold set_words_per_page
    by_cases h : s.pages = []
    · rw [if_pos h]
    · rw [if_neg h]

/-- Witness for C6: a loaded two-page book re-paginated at size `3`, a
cancelled prompt, and the no-book case. -/
theorem set_words_per_page_semantics_witness :
    (ReaderState.mk 2 [["a", "b"], ["c"]] 1).pages ≠ [] ∧
    (set_words_per_page (ReaderState.mk 2 [["a", "b"], ["c"]] 1)
        (some 3)).1.pages = paginate_words ["a", "b", "c"] 3 ∧
    (set_words_per_page (ReaderState.mk 2 [["a", "b"], ["c"]] 1)
        (some 3)).1.current_page_idx = 0 ∧
    (set_words_per_page (ReaderState.mk 2 [["a", "b"], ["c"]] 1) none).1 =
      ReaderState.mk 2 [["a", "b"], ["c"]] 1 ∧
    (set_words_per_page (ReaderState.mk 2 [] 0) (some 3)).1 =
      ReaderState.mk 2 [] 0 := by
  have h := set_words_per_page_semantics (ReaderState.mk 2 [["a", "b"], ["c"]] 1)
    (some 3)
  have hc := set_words_per_page_semantics (ReaderState.mk 2 [["a", "b"], ["c"]] 1)
    none
  have he := set_words_per_page_semantics (ReaderState.mk 2 [] 0) (some 3)
  obtain ⟨h1, h2, h3⟩ := h.1 (by simp) 3 rfl
  refine ⟨by simp, ?_, h3, hc.2.2 rfl, he.2.1 rfl⟩
  rw [h2]
  decide

/-- C7: an extraction failure is caught by `open_epub`: the reader state
is unchanged (`pages`, `current_page_idx`, `words_per_page`), and the
only effect is an error dialog carrying the underlying cause. -/
theorem open_epub_failure_atomic (s : ReaderState) (e : String) :
    (open_epub s (.failure e)).1 = s ∧
    (open_epub s (.failure e)).2 =
      [.errorDialog ("Failed to open/parse ePub:\n" ++ e)] :=
  ⟨rfl, rfl⟩

/-- C8: extraction succeeding with zero words leaves an empty page list
and only a warning; no book is loaded, and in that state `next_page`,
`prev_page` and `render_current_page` are guarded no-ops that do not
render. -/
theorem open_epub_empty_content (s : ReaderState) :
    (open_epub s (.success [])).1.pages = [] ∧
    (open_epub s (.success [])).2 =
      [.warning "No textual content found in this ePub."] ∧
    next_page (open_epub s (.success [])).1 =
      ((open_epub s (.success [])).1, []) ∧
    prev_page (open_epub s (.success [])).1 =
      ((open_epub s (.success [])).1, []) ∧
    render_current_page (open_epub s (.success [])).1 = [] := by
  have hres : open_epub s (.success []) =
      ({ s with pages := [], current_page_idx := 0 },
        [.warning "No textual content found in this ePub."]) := by
    simp only [open_epub]
    rw [if_pos (show (loadPages s []).pages = [] from rfl)]
    exact rfl
  rw [hres]
  refine ⟨rfl, rfl, ?_, ?_, ?_⟩
  · unfold next_page
    rw [if_pos rfl]
  · unfold prev_page
    rw [if_pos rfl]
  · exact render_nil _ rfl

/-- C9: the pagination loop terminates for every input and every page
size `p ≥ 1`: the loop index passes the bound within `words.length`
iterations, and every fuel budget of at least `words.length` computes the
same pages.  The precondition is necessary: with `p = 0` on a non-empty
list the index never advances past the guard. -/
theorem paginate_terminates (words : List String) (p : Nat) :
    (1 ≤ p →
      (∃ k, ¬ idxAfter p k < words.length) ∧
      ∀ fuel, words.length ≤ fuel →
        paginateGo words p 0 fuel = paginate_words words p) ∧
    (p = 0 → words ≠ [] → ∀ k, idxAfter p k < words.length) := by
  have hidx : ∀ k, idxAfter p k = k * p := by
    intro k
    induction k with
    | zero => rw [Nat.zero_mul]; exact rfl
    | succ k ih => rw [idxAfter, ih, Nat.succ_mul]
  constructor
  · intro hp
    refine ⟨⟨words.length, ?_⟩, fun fuel hf =>
      paginateGo_stable p hp words.length words fuel le_rfl hf⟩
    rw [hidx]
    have h1 : words.length * 1 ≤ words.length * p :=
      Nat.mul_le_mul_left words.length hp
    have h2 : words.length * 1 = words.length := Nat.mul_one words.length
    omega
  · intro h0 hw k
    rw [hidx, h0, Nat.mul_zero]
    exact List.length_pos.mpr hw

/-- Witness for C9 on `["w"]`: page size `1` passes the guard and the
loop result is fuel-independent, while page size `0` never passes it. -/
theorem paginate_terminates_witness :
    (∃ k, ¬ idxAfter 1 k < (["w"] : List String).length) ∧
    paginateGo ["w"] 1 0 5 = paginate_words ["w"] 1 ∧
    idxAfter 0 7 < (["w"] : List String).length := by
  have h1 := (paginate_terminates ["w"] 1).1 (by norm_num)
  have h2 := (paginate_terminates ["w"] 0).2 rfl (by simp)
  exact ⟨h1.1, h1.2 5 (by decide), h2 7⟩

/-- C10: all four handlers preserve the invariant that either no pages
are loaded or the current index is in bounds, and under that invariant
`render_current_page` never indexes out of bounds. -/
theorem handlers_preserve_inv (s : ReaderState) (h : stateInv s)
    (input : OpenInput) (dialog : Option Nat) :
    stateInv (open_epub s input).1 ∧
    stateInv (next_page s).1 ∧
    stateInv (prev_page s).1 ∧
    stateInv (set_words_per_page s dialog).1 ∧
    UIEvent.indexError ∉ render_current_page s := by
  refine ⟨?_, ?_, ?_, ?_, ?_⟩
  · match input with
    | .cancelled => exact h
    | .failure e => exact h
    | .success ws =>
      simp only [open_epub]
      by_cases hp : (loadPages s ws).pages = []
      · rw [if_pos hp]
        exact Or.inl hp
      · rw [if_neg hp]
        exact Or.inr (List.length_pos.mpr hp)
  · unfold next_page
    by_cases h0 : s.pages = []
    · rw [if_pos h0]
      exact h
    · rw [if_neg h0]
      by_cases h1 : s.current_page_idx < s.pages.length - 1
      · rw [if_pos h1]
        have hL := List.length_pos.mpr h0
        refine Or.inr ?_
        show s.current_page_idx + 1 < s.pages.length
        omega
      · rw [if_neg h1]
        exact h
  · unfold prev_page
    by_cases h0 : s.pages = []
    · rw [if_pos h0]
      exact h
    · rw [if_neg h0]
      by_cases h1 : 0 < s.current_page_idx
      · rw [if_pos h1]
        have hidx : s.current_page_idx < s.pages.length := by
          rcases h with h | h
          · exact absurd h h0
          · exact h
        refine Or.inr ?_
        show s.current_page_idx - 1 < s.pages.length
        omega
      · rw [if_neg h1]
        exact h
  · unfold set_words_per_page
    by_cases h0 : s.pages = []
    · rw [if_pos h0]
      exact h
    · rw [if_neg h0]
      match dialog with
      | none => exact h
      | some w =>
        by_cases hq : paginate_words s.pages.flatten w = []
        · exact Or.inl hq
        · exact Or.inr (List.length_pos.mpr hq)
  · rcases h with h0 | hidx
    · rw [render_nil s h0]
      simp
    · obtain ⟨page, hpage⟩ : ∃ page,
          s.pages.get? s.current_page_idx = some page :=
        ⟨_, List.get?_eq_get hidx⟩
      rw [render_eq_of_get s page hpage]
      simp

/-- Witness for C10 at a concrete in-bounds state. -/
theorem handlers_preserve_inv_witness :
    stateInv (ReaderState.mk 2 [["a", "b"], ["c"]] 1) ∧
    (stateInv (open_epub (ReaderState.mk 2 [["a", "b"], ["c"]] 1)
        (.success ["x"])).1 ∧
      stateInv (next_page (ReaderState.mk 2 [["a", "b"], ["c"]] 1)).1 ∧
      stateInv (prev_page (ReaderState.mk 2 [["a", "b"], ["c"]] 1)).1 ∧
      stateInv (set_words_per_page (ReaderState.mk 2 [["a", "b"], ["c"]] 1)
        (some 3)).1 ∧
      UIEvent.indexError ∉
        render_current_page (ReaderState.mk 2 [["a", "b"], ["c"]] 1)) :=
  ⟨by decide,
    handlers_preserve_inv (ReaderState.mk 2 [["a", "b"], ["c"]] 1) (by decide)
      (.success ["x"]) (some 3)⟩

end EpubSim
